import Mathlib

/-!
Verification of the AMM swap core of the repository (a Uniswap-V2 style
router): the pricing library `UniswapV2Library` (sortTokens, quote,
getAmountOut, getAmountsOut) and the router `UniswapV2Router02`
(addLiquidity, swapExactTokensForTokens, swapExactETHForTokens,
swapExactTokensForETH, _ensurePair, _swap).

Modelling conventions:
* Addresses and uint256 values are `Nat`.  Solidity 0.8 uses checked
  arithmetic: an overflow reverts instead of wrapping, so a call that
  returns has computed with exact integer arithmetic; `Nat` models
  exactly those returning executions, and every `require`/revert is an
  explicit `Except.error`.
* The external ledger (factory pair registry and per-pair reserves) is an
  explicit state value threaded through the router functions.  The
  factory contract source is not part of the snapshot (only its interface
  and deployment script are), so its registry behaviour is modelled from
  the spec where noted.
* A reverted transaction leaves the chain state unchanged; `runTx` below
  captures that ambient commit/abort semantics.
* External calls the router performs (token transfers, WETH wrap/unwrap,
  pair swap/mint) are recorded as an ordered `Action` trace.
-/

deriving instance DecidableEq for Except

namespace RobinhoodSwap

abbrev Addr := Nat

/-- Revert reasons of the library and router, one constructor per distinct
`require` message in the source. -/
inductive SwapError where
  /-- "LIB: IDENTICAL" -/
  | identicalTokens
  /-- "LIB: ZERO" -/
  | zeroAddress
  /-- "LIB: PAIR_NOT_FOUND" -/
  | pairNotFound
  /-- "LIB: INSUFFICIENT_AMOUNT" -/
  | insufficientAmount
  /-- "LIB: INSUFFICIENT_LIQUIDITY" -/
  | insufficientLiquidity
  /-- "LIB: INSUFFICIENT_INPUT" -/
  | insufficientInput
  /-- "LIB: PATH" -/
  | pathLib
  /-- "ROUTER: PATH" -/
  | pathRouter
  /-- "ROUTER: EXPIRED" -/
  | expired
  /-- "ROUTER: INSUFFICIENT_OUTPUT" -/
  | insufficientOutput
  deriving DecidableEq

/-- The spec's error taxonomy (section 7). -/
inductive ErrClass where
  | validationErr
  | liquidityErr
  | expiredErr
  | slippageErr
  | notFoundErr
  deriving DecidableEq

/-- Classification of each concrete revert reason under the spec's
taxonomy. -/
def errClass : SwapError → ErrClass
  | .identicalTokens => .validationErr
  | .zeroAddress => .validationErr
  | .pairNotFound => .notFoundErr
  | .insufficientAmount => .validationErr
  | .insufficientLiquidity => .liquidityErr
  | .insufficientInput => .validationErr
  | .pathLib => .validationErr
  | .pathRouter => .validationErr
  | .expired => .expiredErr
  | .insufficientOutput => .slippageErr

/-- `UniswapV2Library.sortTokens` (src/unnamed/part_005 lines 13-17). -/
def sortTokens (tokenA tokenB : Addr) : Except SwapError (Addr × Addr) :=
  if tokenA = tokenB then .error .identicalTokens
  else
    let token0 := if tokenA < tokenB then tokenA else tokenB
    let token1 := if tokenA < tokenB then tokenB else tokenA
    if token0 = 0 then .error .zeroAddress
    else .ok (token0, token1)

/-- `UniswapV2Library.quote` (src/unnamed/part_005 lines 30-34). -/
def quote (amountA reserveA reserveB : Nat) : Except SwapError Nat :=
  if 0 < amountA then
    if 0 < reserveA ∧ 0 < reserveB then
      .ok (amountA * reserveB / reserveA)
    else .error .insufficientLiquidity
  else .error .insufficientAmount

/-- `UniswapV2Library.getAmountOut` (src/unnamed/part_005 lines 36-43). -/
def getAmountOut (amountIn reserveIn reserveOut : Nat) : Except SwapError Nat :=
  if 0 < amountIn then
    if 0 < reserveIn ∧ 0 < reserveOut then
      let amountInWithFee := amountIn * 997
      let numerator := amountInWithFee * reserveOut
      let denominator := reserveIn * 1000 + amountInWithFee
      .ok (numerator / denominator)
    else .error .insufficientLiquidity
  else .error .insufficientInput

/-- The closed-form output formula as the spec states it:
`floor(amountInWithFee * reserveOut / (reserveIn * 1000 + amountInWithFee))`
with `amountInWithFee = amountIn * 997`. -/
def amountOutSpec (amountIn reserveIn reserveOut : Nat) : Nat :=
  amountIn * 997 * reserveOut / (reserveIn * 1000 + amountIn * 997)

/-- Association-list lookup for the factory's pair registry; the zero
address signals "no pair", as in Solidity's default mapping value. -/
def lookupPairKey (k : Addr × Addr) : List ((Addr × Addr) × Addr) → Addr
  | [] => 0
  | (k', v) :: rest => if k' = k then v else lookupPairKey k rest

/-- Modelled from the spec: the `UniswapV2Factory` contract is not in the
snapshot (only its interface `IUniswapV2FactoryRouter` and the deploy
script are).  Per spec section 4.1 the registry "maps an unordered token
pair to a canonical pair identifier"; we key the registry by the
canonically sorted pair and allocate fresh nonzero identifiers. -/
structure FactoryState where
  pairs : List ((Addr × Addr) × Addr)
  lastPairId : Nat
  deriving DecidableEq

/-- The canonical (sorted) key of an unordered token pair,
`token0 = min(tokenA, tokenB)` as in spec section 4.1. -/
def canonKey (tokenA tokenB : Addr) : Addr × Addr :=
  if tokenA < tokenB then (tokenA, tokenB) else (tokenB, tokenA)

/-- Modelled from the spec: factory `getPair` lookup, canonical-key based
(the real factory stores the pair under both orderings; keying by the
canonical pair gives the same order-insensitive reads). -/
def FactoryState.getPair (s : FactoryState) (tokenA tokenB : Addr) : Addr :=
  lookupPairKey (canonKey tokenA tokenB) s.pairs

/-- Modelled from the spec: factory `createPair`; "canonicalizes order
(token0 = min(tokenA, tokenB))", validates via the library's `sortTokens`
checks (identical tokens, zero address), and records a fresh pair with
zero reserves under the canonical key. -/
def FactoryState.createPair (s : FactoryState) (tokenA tokenB : Addr) :
    Except SwapError (Addr × FactoryState) :=
  match sortTokens tokenA tokenB with
  | .error e => .error e
  | .ok (token0, token1) =>
    let p := s.lastPairId + 1
    .ok (p, ⟨((token0, token1), p) :: s.pairs, p⟩)

/-- `UniswapV2Router02._ensurePair` (src/contracts/UniswapV2Router02.sol
lines 102-107): get the pair from the factory, creating it if absent. -/
def ensurePair (s : FactoryState) (tokenA tokenB : Addr) :
    Except SwapError (Addr × FactoryState) :=
  let pair := s.getPair tokenA tokenB
  if pair ≠ 0 then .ok (pair, s)
  else s.createPair tokenA tokenB

/-- Reserve lookup by pair identifier (collaborator `getReserves` on the
pair contract); an unknown pair holds zero reserves, matching "creates
one with zero reserves". -/
def lookupReserves (p : Addr) : List (Addr × Nat × Nat) → Nat × Nat
  | [] => (0, 0)
  | (q, r) :: rest => if q = p then r else lookupReserves p rest

/-- The ledger state the engine reads and writes: the factory registry
plus each pair's `(reserve0, reserve1)` stored in canonical order. -/
structure AmmState where
  factory : FactoryState
  reserves : List (Addr × Nat × Nat)
  deriving DecidableEq

/-- `_ensurePair` lifted to the full ledger state. -/
def ensurePairS (s : AmmState) (tokenA tokenB : Addr) :
    Except SwapError (Addr × AmmState) :=
  match ensurePair s.factory tokenA tokenB with
  | .error e => .error e
  | .ok (p, f) => .ok (p, ⟨f, s.reserves⟩)

/-- `UniswapV2Library.pairFor` (src/unnamed/part_005 lines 19-22):
factory lookup that reverts when the pair does not exist. -/
def pairFor (s : AmmState) (tokenA tokenB : Addr) : Except SwapError Addr :=
  let pair := s.factory.getPair tokenA tokenB
  if pair = 0 then .error .pairNotFound else .ok pair

/-- `UniswapV2Library.getReserves` (src/unnamed/part_005 lines 24-28):
read the pair's reserves and orient them to the (tokenA, tokenB)
argument order. -/
def getReserves (s : AmmState) (tokenA tokenB : Addr) :
    Except SwapError (Nat × Nat) :=
  match sortTokens tokenA tokenB with
  | .error e => .error e
  | .ok (token0, _) =>
    match pairFor s tokenA tokenB with
    | .error e => .error e
    | .ok pair =>
      let (reserve0, reserve1) := lookupReserves pair s.reserves
      .ok (if tokenA = token0 then (reserve0, reserve1) else (reserve1, reserve0))

/-- The hop loop of `UniswapV2Library.getAmountsOut` (src/unnamed/part_005
lines 48-52): `amounts[0] = amountIn` and
`amounts[i+1] = getAmountOut(amounts[i], reserves of hop i)`. -/
def amountsOutFrom (s : AmmState) (amountIn : Nat) :
    List Addr → Except SwapError (List Nat)
  | tin :: tout :: rest =>
    match getReserves s tin tout with
    | .error e => .error e
    | .ok (reserveIn, reserveOut) =>
      match getAmountOut amountIn reserveIn reserveOut with
      | .error e => .error e
      | .ok amountNext =>
        match amountsOutFrom s amountNext (tout :: rest) with
        | .error e => .error e
        | .ok tl => .ok (amountIn :: tl)
  | _ => .ok [amountIn]

/-- `UniswapV2Library.getAmountsOut` (src/unnamed/part_005 lines 45-53). -/
def getAmountsOut (s : AmmState) (amountIn : Nat) (path : List Addr) :
    Except SwapError (List Nat) :=
  if 2 ≤ path.length then amountsOutFrom s amountIn path
  else .error .pathLib

/-- Call context of a router transaction: `msg.sender`, `address(this)`,
the immutable `WETH` address, and `block.timestamp`. -/
structure Ctx where
  sender : Addr
  router : Addr
  weth : Addr
  timestamp : Nat
  deriving DecidableEq

/-- External calls the router issues, in program order. -/
inductive Action where
  /-- `IERC20(token).transferFrom(fromAddr, toAddr, value)` -/
  | transferFrom (token fromAddr toAddr : Addr) (value : Nat)
  /-- `IWETH(WETH).deposit{value: value}()` -/
  | wethDeposit (value : Nat)
  /-- `IWETH(WETH).transfer(toAddr, value)` -/
  | wethTransfer (toAddr : Addr) (value : Nat)
  /-- `IWETH(WETH).withdraw(value)` -/
  | wethWithdraw (value : Nat)
  /-- `IUniswapV2PairRouter(pair).swap(amount0Out, amount1Out, toAddr)` -/
  | pairSwap (pair : Addr) (amount0Out amount1Out : Nat) (toAddr : Addr)
  /-- `payable(toAddr).transfer(value)` -/
  | ethTransfer (toAddr : Addr) (value : Nat)
  /-- `IUniswapV2PairRouter(pair).mint(toAddr)` -/
  | mint (pair toAddr : Addr)
  deriving DecidableEq

/-- `UniswapV2Router02._swap` (src/contracts/UniswapV2Router02.sol lines
109-119): for each hop, pick the output side by canonical ordering,
release `amounts[i+1]` to the next hop's pair (or `dest` on the last
hop), and issue the pair's `swap` call.  The two lists are walked in
lockstep; every caller passes `amounts` produced by `getAmountsOut` for
the same `path`, so they have equal length and the Solidity indexing
`amounts[i + 1]` is always in range. -/
def swapActions (s : AmmState) :
    List Nat → List Addr → Addr → Except SwapError (List Action)
  | _ :: amountNext :: amountsRest, input :: output :: rest, dest =>
    match sortTokens input output with
    | .error e => .error e
    | .ok (token0, _) =>
      let amount0Out := if input = token0 then 0 else amountNext
      let amount1Out := if input = token0 then amountNext else 0
      let toRes : Except SwapError Addr :=
        match rest with
        | next :: _ => pairFor s output next
        | [] => .ok dest
      match toRes with
      | .error e => .error e
      | .ok toAddr =>
        match pairFor s input output with
        | .error e => .error e
        | .ok pair =>
          match swapActions s (amountNext :: amountsRest) (output :: rest) dest with
          | .error e => .error e
          | .ok tl => .ok (.pairSwap pair amount0Out amount1Out toAddr :: tl)
  | _, _, _ => .ok []

/-- `UniswapV2Router02.swapExactTokensForTokens`
(src/contracts/UniswapV2Router02.sol lines 124-140). -/
def swapExactTokensForTokens (c : Ctx) (s : AmmState)
    (amountIn amountOutMin : Nat) (path : List Addr) (toAddr : Addr)
    (deadline : Nat) : Except SwapError (AmmState × List Nat × List Action) :=
  if c.timestamp ≤ deadline then
    if 2 ≤ path.length then
      match ensurePairS s (path.getD 0 0) (path.getD 1 0) with
      | .error e => .error e
      | .ok (_, s1) =>
        match getAmountsOut s1 amountIn path with
        | .error e => .error e
        | .ok amounts =>
          if amountOutMin ≤ amounts.getD (amounts.length - 1) 0 then
            match pairFor s1 (path.getD 0 0) (path.getD 1 0) with
            | .error e => .error e
            | .ok pair =>
              match swapActions s1 amounts path toAddr with
              | .error e => .error e
              | .ok acts =>
                .ok (s1, amounts,
                  .transferFrom (path.getD 0 0) c.sender pair (amounts.getD 0 0) :: acts)
          else .error .insufficientOutput
    else .error .pathRouter
  else .error .expired

/-- `UniswapV2Router02.swapExactETHForTokens`
(src/contracts/UniswapV2Router02.sol lines 142-159); `value` is
`msg.value`. -/
def swapExactETHForTokens (c : Ctx) (s : AmmState)
    (value amountOutMin : Nat) (path : List Addr) (toAddr : Addr)
    (deadline : Nat) : Except SwapError (AmmState × List Nat × List Action) :=
  if c.timestamp ≤ deadline then
    if 2 ≤ path.length ∧ path.getD 0 0 = c.weth then
      match ensurePairS s (path.getD 0 0) (path.getD 1 0) with
      | .error e => .error e
      | .ok (_, s1) =>
        match getAmountsOut s1 value path with
        | .error e => .error e
        | .ok amounts =>
          if amountOutMin ≤ amounts.getD (amounts.length - 1) 0 then
            match pairFor s1 (path.getD 0 0) (path.getD 1 0) with
            | .error e => .error e
            | .ok pair =>
              match swapActions s1 amounts path toAddr with
              | .error e => .error e
              | .ok acts =>
                .ok (s1, amounts,
                  .wethDeposit (amounts.getD 0 0)
                    :: .wethTransfer pair (amounts.getD 0 0) :: acts)
          else .error .insufficientOutput
    else .error .pathRouter
  else .error .expired

/-- `UniswapV2Router02.swapExactTokensForETH`
(src/contracts/UniswapV2Router02.sol lines 161-184): `_swap` settles to
the router itself (`address(this)`), which then unwraps the final amount
and forwards it to the recipient. -/
def swapExactTokensForETH (c : Ctx) (s : AmmState)
    (amountIn amountOutMin : Nat) (path : List Addr) (toAddr : Addr)
    (deadline : Nat) : Except SwapError (AmmState × List Nat × List Action) :=
  if c.timestamp ≤ deadline then
    if 2 ≤ path.length ∧ path.getD (path.length - 1) 0 = c.weth then
      match ensurePairS s (path.getD 0 0) (path.getD 1 0) with
      | .error e => .error e
      | .ok (_, s1) =>
        match getAmountsOut s1 amountIn path with
        | .error e => .error e
        | .ok amounts =>
          if amountOutMin ≤ amounts.getD (amounts.length - 1) 0 then
            match pairFor s1 (path.getD 0 0) (path.getD 1 0) with
            | .error e => .error e
            | .ok pair =>
              match swapActions s1 amounts path c.router with
              | .error e => .error e
              | .ok acts =>
                let amountOut := amounts.getD (amounts.length - 1) 0
                .ok (s1, amounts,
                  .transferFrom (path.getD 0 0) c.sender pair (amounts.getD 0 0)
                    :: acts ++ [.wethWithdraw amountOut, .ethTransfer toAddr amountOut])
          else .error .insufficientOutput
    else .error .pathRouter
  else .error .expired

/-- The deposit-amount selection of `UniswapV2Router02.addLiquidity`
(src/contracts/UniswapV2Router02.sol lines 55-65): bootstrap case on
zero reserves, otherwise the quote-and-compare branch pair. -/
def addLiquidityAmounts (reserveA reserveB amountADesired amountBDesired : Nat) :
    Except SwapError (Nat × Nat) :=
  if reserveA = 0 ∧ reserveB = 0 then .ok (amountADesired, amountBDesired)
  else
    match quote amountADesired reserveA reserveB with
    | .error e => .error e
    | .ok amountBOptimal =>
      if amountBOptimal ≤ amountBDesired then .ok (amountADesired, amountBOptimal)
      else
        match quote amountBDesired reserveB reserveA with
        | .error e => .error e
        | .ok amountAOptimal => .ok (amountAOptimal, amountBDesired)

/-- `UniswapV2Router02.addLiquidity` (src/contracts/UniswapV2Router02.sol
lines 45-70): ensure the pair, read oriented reserves, select amounts,
then transfer both legs into pair custody and mint. -/
def addLiquidity (c : Ctx) (s : AmmState)
    (tokenA tokenB amountADesired amountBDesired : Nat) (toAddr : Addr) :
    Except SwapError (AmmState × (Nat × Nat) × List Action) :=
  match ensurePairS s tokenA tokenB with
  | .error e => .error e
  | .ok (pair, s1) =>
    match getReserves s1 tokenA tokenB with
    | .error e => .error e
    | .ok (reserveA, reserveB) =>
      match addLiquidityAmounts reserveA reserveB amountADesired amountBDesired with
      | .error e => .error e
      | .ok (amountA, amountB) =>
        .ok (s1, (amountA, amountB),
          [.transferFrom tokenA c.sender pair amountA,
           .transferFrom tokenB c.sender pair amountB,
           .mint pair toAddr])

/-- Ambient transactional semantics (spec section 5): a transaction that
errors reverts, leaving the pre-call ledger state; one that succeeds
commits the returned state. -/
def runTx {α : Type} (s : AmmState) (r : Except SwapError (AmmState × α)) :
    AmmState × Except SwapError α :=
  match r with
  | .ok (s', a) => (s', .ok a)
  | .error e => (s, .error e)

/-! ### Inversion lemmas for the pure pricing functions -/

theorem getAmountOut_eq_ok {amountIn reserveIn reserveOut o : Nat} :
    getAmountOut amountIn reserveIn reserveOut = .ok o ↔
      0 < amountIn ∧ 0 < reserveIn ∧ 0 < reserveOut ∧
        amountIn * 997 * reserveOut / (reserveIn * 1000 + amountIn * 997) = o := by
  unfold getAmountOut
  by_cases h1 : 0 < amountIn
  · by_cases h2 : 0 < reserveIn ∧ 0 < reserveOut
    · simp [h1, h2.1, h2.2]
    · rw [if_pos h1, if_neg h2]
      constructor
      · intro h; cases h
      · rintro ⟨_, hb, hc, _⟩; exact absurd ⟨hb, hc⟩ h2
  · rw [if_neg h1]
    constructor
    · intro h; cases h
    · rintro ⟨ha, _⟩; exact absurd ha h1

theorem quote_eq_ok {amountA reserveA reserveB o : Nat} :
    quote amountA reserveA reserveB = .ok o ↔
      0 < amountA ∧ 0 < reserveA ∧ 0 < reserveB ∧ amountA * reserveB / reserveA = o := by
  unfold quote
  by_cases h1 : 0 < amountA
  · by_cases h2 : 0 < reserveA ∧ 0 < reserveB
    · rw [if_pos h1, if_pos h2]
      simp [h1, h2.1, h2.2]
    · rw [if_pos h1, if_neg h2]
      constructor
      · intro h; cases h
      · rintro ⟨_, hb, hc, _⟩; exact absurd ⟨hb, hc⟩ h2
  · rw [if_neg h1]
    constructor
    · intro h; cases h
    · rintro ⟨ha, _⟩; exact absurd ha h1

/-- **C1.** For every `amountIn > 0`, `reserveIn > 0`, `reserveOut > 0`, the
value `amountOut` returned by `getAmountOut` satisfies `amountOut <
reserveOut` strictly, and the post-swap product bound
`(reserveIn + amountIn) * (reserveOut - amountOut) ≥ reserveIn * reserveOut`,
in exact integer arithmetic. -/
theorem getAmountOut_drain_and_product_bounds
    (amountIn reserveIn reserveOut amountOut : Nat)
    (hIn : 0 < amountIn) (hRIn : 0 < reserveIn) (hROut : 0 < reserveOut)
    (h : getAmountOut amountIn reserveIn reserveOut = .ok amountOut) :
    amountOut < reserveOut ∧
      reserveIn * reserveOut ≤ (reserveIn + amountIn) * (reserveOut - amountOut) := by
  obtain ⟨-, -, -, hval⟩ := getAmountOut_eq_ok.mp h
  have hd : 0 < reserveIn * 1000 + amountIn * 997 := by positivity
  have hlt : amountOut < reserveOut := by
    rw [← hval, Nat.div_lt_iff_lt_mul hd]
    nlinarith
  refine ⟨hlt, ?_⟩
  have hmul : amountOut * (reserveIn * 1000 + amountIn * 997) ≤
      amountIn * 997 * reserveOut := by
    rw [← hval]; exact Nat.div_mul_le_self _ _
  have hcan : (reserveIn + amountIn) * amountOut * (reserveIn * 1000 + amountIn * 997) ≤
      amountIn * reserveOut * (reserveIn * 1000 + amountIn * 997) := by
    calc (reserveIn + amountIn) * amountOut * (reserveIn * 1000 + amountIn * 997)
        = (reserveIn + amountIn) * (amountOut * (reserveIn * 1000 + amountIn * 997)) := by
          ring
      _ ≤ (reserveIn + amountIn) * (amountIn * 997 * reserveOut) :=
          Nat.mul_le_mul (le_refl _) hmul
      _ = amountIn * reserveOut * (reserveIn * 997 + amountIn * 997) := by ring
      _ ≤ amountIn * reserveOut * (reserveIn * 1000 + amountIn * 997) :=
          Nat.mul_le_mul (le_refl _) (by omega)
  have hkey : (reserveIn + amountIn) * amountOut ≤ amountIn * reserveOut :=
    Nat.le_of_mul_le_mul_right hcan hd
  have hle : amountOut ≤ reserveOut := Nat.le_of_lt hlt
  zify [hle] at *
  nlinarith

/-- Closed witness for C1 at `amountIn = 100`, reserves `(1000, 1000)`. -/
theorem getAmountOut_drain_and_product_bounds_witness :
    90 < 1000 ∧ 1000 * 1000 ≤ (1000 + 100) * (1000 - 90) :=
  getAmountOut_drain_and_product_bounds 100 1000 1000 90
    (by decide) (by decide) (by decide) (by decide)

/-- **C2.** On positive inputs, `getAmountOut` returns exactly
`floor(amountIn*997*reserveOut / (reserveIn*1000 + amountIn*997))`
(the spec's closed form `amountOutSpec`); in particular
`getAmountOut 100 1000 1000 = 90`. -/
theorem getAmountOut_closed_form :
    (∀ amountIn reserveIn reserveOut : Nat,
      0 < amountIn → 0 < reserveIn → 0 < reserveOut →
        getAmountOut amountIn reserveIn reserveOut =
          .ok (amountOutSpec amountIn reserveIn reserveOut)) ∧
    getAmountOut 100 1000 1000 = .ok 90 := by
  refine ⟨fun amountIn reserveIn reserveOut h1 h2 h3 => ?_, by decide⟩
  exact getAmountOut_eq_ok.mpr ⟨h1, h2, h3, rfl⟩

/-- Closed witness for C2 at `(3, 5, 7)` and the concrete spec case. -/
theorem getAmountOut_closed_form_witness :
    getAmountOut 3 5 7 = .ok (amountOutSpec 3 5 7) ∧
      getAmountOut 100 1000 1000 = .ok 90 :=
  ⟨getAmountOut_closed_form.1 3 5 7 (by decide) (by decide) (by decide),
   getAmountOut_closed_form.2⟩

/-- **C4.** `addLiquidity` deposit-amount selection: the bootstrap case
returns the desired amounts unchanged; otherwise it quotes
`amountBOptimal` and keeps `(amountADesired, amountBOptimal)` when that
fits under `amountBDesired`, else falls back to
`(quote amountBDesired reserveB reserveA, amountBDesired)`; the stateful
`addLiquidity` commits exactly the selected amounts; and with reserves
`(1000, 1000)` and desired `(200, 180)` the result is `(180, 180)`. -/
theorem addLiquidity_amount_selection :
    (∀ amountADesired amountBDesired : Nat,
      addLiquidityAmounts 0 0 amountADesired amountBDesired =
        .ok (amountADesired, amountBDesired)) ∧
    (∀ reserveA reserveB amountADesired amountBDesired amountBOptimal : Nat,
      ¬(reserveA = 0 ∧ reserveB = 0) →
      quote amountADesired reserveA reserveB = .ok amountBOptimal →
      amountBOptimal ≤ amountBDesired →
      addLiquidityAmounts reserveA reserveB amountADesired amountBDesired =
        .ok (amountADesired, amountBOptimal)) ∧
    (∀ reserveA reserveB amountADesired amountBDesired amountBOptimal amountAOptimal : Nat,
      ¬(reserveA = 0 ∧ reserveB = 0) →
      quote amountADesired reserveA reserveB = .ok amountBOptimal →
      amountBDesired < amountBOptimal →
      quote amountBDesired reserveB reserveA = .ok amountAOptimal →
      addLiquidityAmounts reserveA reserveB amountADesired amountBDesired =
        .ok (amountAOptimal, amountBDesired)) ∧
    (∀ (c : Ctx) (s : AmmState) (tokenA tokenB amountADesired amountBDesired : Nat)
       (toAddr pair : Addr) (s1 : AmmState) (reserveA reserveB : Nat) (r : Nat × Nat),
      ensurePairS s tokenA tokenB = .ok (pair, s1) →
      getReserves s1 tokenA tokenB = .ok (reserveA, reserveB) →
      addLiquidityAmounts reserveA reserveB amountADesired amountBDesired = .ok r →
      addLiquidity c s tokenA tokenB amountADesired amountBDesired toAddr =
        .ok (s1, r,
          [.transferFrom tokenA c.sender pair r.1,
           .transferFrom tokenB c.sender pair r.2,
           .mint pair toAddr])) ∧
    addLiquidityAmounts 1000 1000 200 180 = .ok (180, 180) := by
  refine ⟨fun aD bD => by simp [addLiquidityAmounts],
          fun rA rB aD bD bOpt hres hq hle => ?_,
          fun rA rB aD bD bOpt aOpt hres hq hgt hq2 => ?_,
          fun c s tA tB aD bD toAddr pair s1 rA rB r h1 h2 h3 => ?_,
          by decide⟩
  · simp only [addLiquidityAmounts, if_neg hres, hq, if_pos hle]
  · have hnle : ¬ bOpt ≤ bD := Nat.not_le.mpr hgt
    simp only [addLiquidityAmounts, if_neg hres, hq, if_neg hnle, hq2]
  · obtain ⟨r1, r2⟩ := r
    simp only [addLiquidity, h1, h2, h3]

/-- Closed witness for C4, exercising all four conditional conjuncts at
concrete inputs, including the spec's `(1000, 1000)` / `(200, 180)`
case. -/
theorem addLiquidity_amount_selection_witness :
    addLiquidityAmounts 0 0 7 9 = .ok (7, 9) ∧
    addLiquidityAmounts 1000 2000 50 120 = .ok (50, 100) ∧
    addLiquidityAmounts 1000 1000 200 180 = .ok (180, 180) ∧
    addLiquidity ⟨9, 8, 3, 50⟩ ⟨⟨[((1, 2), 7)], 7⟩, [(7, (1000, 1000))]⟩ 1 2 200 180 55 =
      .ok (⟨⟨[((1, 2), 7)], 7⟩, [(7, (1000, 1000))]⟩, (180, 180),
        [.transferFrom 1 9 7 180, .transferFrom 2 9 7 180, .mint 7 55]) :=
  ⟨addLiquidity_amount_selection.1 7 9,
   addLiquidity_amount_selection.2.1 1000 2000 50 120 100
     (by decide) (by decide) (by decide),
   addLiquidity_amount_selection.2.2.1 1000 1000 200 180 200 180
     (by decide) (by decide) (by decide) (by decide),
   addLiquidity_amount_selection.2.2.2.1 ⟨9, 8, 3, 50⟩
     ⟨⟨[((1, 2), 7)], 7⟩, [(7, (1000, 1000))]⟩ 1 2 200 180 55 7
     ⟨⟨[((1, 2), 7)], 7⟩, [(7, (1000, 1000))]⟩ 1000 1000 (180, 180)
     (by decide) (by decide) (by decide)⟩

/-- **C5.** Every successful non-bootstrap `addLiquidityAmounts` selection
respects both desired ceilings: `amountA ≤ amountADesired` and
`amountB ≤ amountBDesired` (in the fallback branch the quoted
`amountAOptimal = floor(amountBDesired * reserveA / reserveB)` is at most
`amountADesired`). -/
theorem addLiquidity_respects_ceilings
    (reserveA reserveB amountADesired amountBDesired amountA amountB : Nat)
    (hres : ¬(reserveA = 0 ∧ reserveB = 0))
    (h : addLiquidityAmounts reserveA reserveB amountADesired amountBDesired =
      .ok (amountA, amountB)) :
    amountA ≤ amountADesired ∧ amountB ≤ amountBDesired := by
  rw [addLiquidityAmounts, if_neg hres] at h
  cases hq : quote amountADesired reserveA reserveB with
  | error e => simp only [hq] at h; cases h
  | ok amountBOptimal =>
    simp only [hq] at h
    obtain ⟨haD, hrA, hrB, hBopt⟩ := quote_eq_ok.mp hq
    by_cases hle : amountBOptimal ≤ amountBDesired
    · rw [if_pos hle] at h
      simp only [Except.ok.injEq, Prod.mk.injEq] at h
      obtain ⟨rfl, rfl⟩ := h
      exact ⟨le_refl _, hle⟩
    · rw [if_neg hle] at h
      cases hq2 : quote amountBDesired reserveB reserveA with
      | error e => simp only [hq2] at h; cases h
      | ok amountAOptimal =>
        simp only [hq2, Except.ok.injEq, Prod.mk.injEq] at h
        obtain ⟨rfl, rfl⟩ := h
        obtain ⟨hbD, -, -, hAopt⟩ := quote_eq_ok.mp hq2
        refine ⟨?_, le_refl _⟩
        have hstep : (amountBDesired + 1) * reserveA ≤ amountADesired * reserveB := by
          have : amountBDesired + 1 ≤ amountADesired * reserveB / reserveA := by
            omega
          exact (Nat.le_div_iff_mul_le hrA).mp this
        calc amountAOptimal = amountBDesired * reserveA / reserveB := hAopt.symm
          _ ≤ amountADesired * reserveB / reserveB :=
              Nat.div_le_div_right (by nlinarith)
          _ = amountADesired := Nat.mul_div_cancel amountADesired hrB

/-- Closed witness for C5 at reserves `(1000, 1000)`, desired
`(200, 180)`. -/
theorem addLiquidity_respects_ceilings_witness : 180 ≤ 200 ∧ 180 ≤ 180 :=
  addLiquidity_respects_ceilings 1000 1000 200 180 180 180
    (by decide) (by decide)

/-! ### Monotonicity and positivity of the multi-hop quote -/

theorem div_le_div_cross {n1 d1 n2 d2 : Nat} (hd1 : 0 < d1) (hd2 : 0 < d2)
    (h : n1 * d2 ≤ n2 * d1) : n1 / d1 ≤ n2 / d2 := by
  rw [Nat.le_div_iff_mul_le hd2]
  have hchain : n1 / d1 * d2 * d1 ≤ n2 * d1 := by
    calc n1 / d1 * d2 * d1 = n1 / d1 * d1 * d2 := by ring
      _ ≤ n1 * d2 := Nat.mul_le_mul (Nat.div_mul_le_self n1 d1) (le_refl _)
      _ ≤ n2 * d1 := h
  exact Nat.le_of_mul_le_mul_right hchain hd1

theorem getAmountOut_mono {a1 a2 reserveIn reserveOut o1 o2 : Nat} (hle : a1 ≤ a2)
    (h1 : getAmountOut a1 reserveIn reserveOut = .ok o1)
    (h2 : getAmountOut a2 reserveIn reserveOut = .ok o2) : o1 ≤ o2 := by
  obtain ⟨ha1, hrIn, hrOut, hv1⟩ := getAmountOut_eq_ok.mp h1
  obtain ⟨ha2, -, -, hv2⟩ := getAmountOut_eq_ok.mp h2
  rw [← hv1, ← hv2]
  refine div_le_div_cross (by positivity) (by positivity) ?_
  have e1 : a1 * 997 * reserveOut * (reserveIn * 1000 + a2 * 997)
      = a1 * (reserveIn * 1000) * (997 * reserveOut) +
        a1 * a2 * (997 * 997 * reserveOut) := by ring
  have e2 : a2 * 997 * reserveOut * (reserveIn * 1000 + a1 * 997)
      = a2 * (reserveIn * 1000) * (997 * reserveOut) +
        a1 * a2 * (997 * 997 * reserveOut) := by ring
  rw [e1, e2]
  exact Nat.add_le_add_right
    (Nat.mul_le_mul (Nat.mul_le_mul hle (le_refl _)) (le_refl _)) _

theorem amountsOutFrom_mono (s : AmmState) :
    ∀ (path : List Addr) (a1 a2 : Nat) (l1 l2 : List Nat), a1 ≤ a2 →
      amountsOutFrom s a1 path = .ok l1 → amountsOutFrom s a2 path = .ok l2 →
      l1.length = l2.length ∧ ∀ i, l1.getD i 0 ≤ l2.getD i 0 := by
  intro path
  induction path with
  | nil =>
    intro a1 a2 l1 l2 hle h1 h2
    simp only [amountsOutFrom, Except.ok.injEq] at h1 h2
    subst h1; subst h2
    refine ⟨rfl, fun i => ?_⟩
    cases i <;> simp [hle]
  | cons tin rest ih =>
    intro a1 a2 l1 l2 hle h1 h2
    cases rest with
    | nil =>
      simp only [amountsOutFrom, Except.ok.injEq] at h1 h2
      subst h1; subst h2
      refine ⟨rfl, fun i => ?_⟩
      cases i <;> simp [hle]
    | cons tout rest' =>
      cases hres : getReserves s tin tout with
      | error e => simp only [amountsOutFrom, hres] at h1; cases h1
      | ok rr =>
        obtain ⟨reserveIn, reserveOut⟩ := rr
        cases hg1 : getAmountOut a1 reserveIn reserveOut with
        | error e => simp only [amountsOutFrom, hres, hg1] at h1; cases h1
        | ok b1 =>
          cases hg2 : getAmountOut a2 reserveIn reserveOut with
          | error e => simp only [amountsOutFrom, hres, hg2] at h2; cases h2
          | ok b2 =>
            cases hr1 : amountsOutFrom s b1 (tout :: rest') with
            | error e => simp only [amountsOutFrom, hres, hg1, hr1] at h1; cases h1
            | ok t1 =>
              cases hr2 : amountsOutFrom s b2 (tout :: rest') with
              | error e => simp only [amountsOutFrom, hres, hg2, hr2] at h2; cases h2
              | ok t2 =>
                simp only [amountsOutFrom, hres, hg1, hg2, hr1, hr2,
                  Except.ok.injEq] at h1 h2
                subst h1; subst h2
                have hb : b1 ≤ b2 := getAmountOut_mono hle hg1 hg2
                obtain ⟨hlen, hall⟩ := ih b1 b2 t1 t2 hb hr1 hr2
                refine ⟨by simp [hlen], fun i => ?_⟩
                cases i with
                | zero => simpa using hle
                | succ j => simpa using hall j

/-- **C3.** For a fixed path and fixed reserve state, `getAmountsOut` is
monotone non-decreasing in `amountIn`: whenever both calls succeed with
`amountIn1 ≤ amountIn2`, the result lists have equal length, every
element of the first is at most the corresponding element of the second,
and in particular the last elements compare. -/
theorem getAmountsOut_monotone (s : AmmState) (path : List Addr)
    (a1 a2 : Nat) (l1 l2 : List Nat) (hle : a1 ≤ a2)
    (h1 : getAmountsOut s a1 path = .ok l1)
    (h2 : getAmountsOut s a2 path = .ok l2) :
    l1.length = l2.length ∧ (∀ i, l1.getD i 0 ≤ l2.getD i 0) ∧
      l1.getD (l1.length - 1) 0 ≤ l2.getD (l2.length - 1) 0 := by
  by_cases hp : 2 ≤ path.length
  · rw [getAmountsOut, if_pos hp] at h1 h2
    obtain ⟨hlen, hall⟩ := amountsOutFrom_mono s path a1 a2 l1 l2 hle h1 h2
    exact ⟨hlen, hall, by rw [hlen]; exact hall _⟩
  · rw [getAmountsOut, if_neg hp] at h1
    cases h1

/-- Fixed sample ledger used by the closed witnesses: one pair `(1, 2)`
with identifier `7` holding reserves `(1000, 1000)`. -/
def sampleState : AmmState := ⟨⟨[((1, 2), 7)], 7⟩, [(7, (1000, 1000))]⟩

/-- Closed witness for C3 on `sampleState` with `path = [1, 2]`,
`amountIn1 = 100`, `amountIn2 = 200`. -/
theorem getAmountsOut_monotone_witness :
    ([100, 90] : List Nat).length = ([200, 166] : List Nat).length ∧
    (∀ i, ([100, 90] : List Nat).getD i 0 ≤ ([200, 166] : List Nat).getD i 0) ∧
    ([100, 90] : List Nat).getD (([100, 90] : List Nat).length - 1) 0 ≤
      ([200, 166] : List Nat).getD (([200, 166] : List Nat).length - 1) 0 :=
  getAmountsOut_monotone sampleState [1, 2] 100 200 [100, 90] [200, 166]
    (by decide) (by decide) (by decide)

theorem amountsOutFrom_intermediate_pos (s : AmmState) :
    ∀ (path : List Addr) (a : Nat) (l : List Nat),
      amountsOutFrom s a path = .ok l →
      ∀ i, i + 1 < l.length → 0 < l.getD i 0 := by
  intro path
  induction path with
  | nil =>
    intro a l h i hi
    simp only [amountsOutFrom, Except.ok.injEq] at h
    subst h
    simp at hi
  | cons tin rest ih =>
    intro a l h i hi
    cases rest with
    | nil =>
      simp only [amountsOutFrom, Except.ok.injEq] at h
      subst h
      simp at hi
    | cons tout rest' =>
      cases hres : getReserves s tin tout with
      | error e => simp only [amountsOutFrom, hres] at h; cases h
      | ok rr =>
        obtain ⟨reserveIn, reserveOut⟩ := rr
        cases hg : getAmountOut a reserveIn reserveOut with
        | error e => simp only [amountsOutFrom, hres, hg] at h; cases h
        | ok b =>
          cases hr : amountsOutFrom s b (tout :: rest') with
          | error e => simp only [amountsOutFrom, hres, hg, hr] at h; cases h
          | ok tl =>
            simp only [amountsOutFrom, hres, hg, hr, Except.ok.injEq] at h
            subst h
            cases i with
            | zero =>
              obtain ⟨ha, -⟩ := getAmountOut_eq_ok.mp hg
              simpa using ha
            | succ j =>
              simp only [List.length_cons, List.getD_cons_succ] at hi ⊢
              exact ih b tl hr j (by omega)

/-- **C10.** Whenever `getAmountsOut` succeeds, every element of the
returned amounts except possibly the last is strictly positive; a zero
amount fed into a further hop whose reserves resolve makes that hop fail
with the insufficient-input error (`"LIB: INSUFFICIENT_INPUT"`, a
ValidationError) rather than the call returning a zero intermediate. -/
theorem getAmountsOut_intermediate_positive :
    (∀ (s : AmmState) (amountIn : Nat) (path : List Addr) (l : List Nat),
      getAmountsOut s amountIn path = .ok l →
      ∀ i, i + 1 < l.length → 0 < l.getD i 0) ∧
    (∀ (s : AmmState) (tin tout : Addr) (rest : List Addr) (rr : Nat × Nat),
      getReserves s tin tout = .ok rr →
      amountsOutFrom s 0 (tin :: tout :: rest) = .error .insufficientInput) ∧
    errClass .insufficientInput = .validationErr := by
  refine ⟨fun s amountIn path l h i hi => ?_, fun s tin tout rest rr hres => ?_, rfl⟩
  · by_cases hp : 2 ≤ path.length
    · rw [getAmountsOut, if_pos hp] at h
      exact amountsOutFrom_intermediate_pos s path amountIn l h i hi
    · rw [getAmountsOut, if_neg hp] at h
      cases h
  · obtain ⟨reserveIn, reserveOut⟩ := rr
    simp [amountsOutFrom, hres, getAmountOut]

/-- Closed witness for C10 on `sampleState`: the successful quote
`[100, 90]` has a positive intermediate, and a zero input into the hop
`(1, 2)` fails with the insufficient-input error. -/
theorem getAmountsOut_intermediate_positive_witness :
    0 < ([100, 90] : List Nat).getD 0 0 ∧
      amountsOutFrom sampleState 0 [1, 2] = .error .insufficientInput :=
  ⟨getAmountsOut_intermediate_positive.1 sampleState 100 [1, 2] [100, 90]
      (by decide) 0 (by decide),
   getAmountsOut_intermediate_positive.2.1 sampleState 1 2 [] (1000, 1000)
      (by decide)⟩

/-! ### Pair registry: order insensitivity and idempotence -/

theorem canonKey_symm (tokenA tokenB : Addr) :
    canonKey tokenA tokenB = canonKey tokenB tokenA := by
  unfold canonKey
  rcases lt_trichotomy tokenA tokenB with h | h | h
  · rw [if_pos h, if_neg (Nat.lt_asymm h)]
  · subst h; simp
  · rw [if_neg (Nat.lt_asymm h), if_pos h]

theorem sortTokens_symm (tokenA tokenB : Addr) :
    sortTokens tokenA tokenB = sortTokens tokenB tokenA := by
  unfold sortTokens
  by_cases he : tokenA = tokenB
  · subst he; simp
  · rw [if_neg he, if_neg (Ne.symm he)]
    rcases lt_trichotomy tokenA tokenB with h | h | h
    · simp only [if_pos h, if_neg (Nat.lt_asymm h)]
    · exact absurd h he
    · simp only [if_neg (Nat.lt_asymm h), if_pos h]

theorem sortTokens_ok_canonKey {tokenA tokenB token0 token1 : Addr}
    (h : sortTokens tokenA tokenB = .ok (token0, token1)) :
    canonKey tokenA tokenB = (token0, token1) := by
  unfold sortTokens at h
  by_cases he : tokenA = tokenB
  · rw [if_pos he] at h; cases h
  · rw [if_neg he] at h
    by_cases h0 : (if tokenA < tokenB then tokenA else tokenB) = 0
    · simp only [if_pos h0] at h; cases h
    · simp only [if_neg h0, Except.ok.injEq, Prod.mk.injEq] at h
      unfold canonKey
      by_cases hlt : tokenA < tokenB
      · simp only [if_pos hlt] at h ⊢
        exact Prod.ext h.1 h.2
      · simp only [if_neg hlt] at h ⊢
        exact Prod.ext h.1 h.2

/-- **C9.** Resolving the pair for `(tokenA, tokenB)` and for
`(tokenB, tokenA)` yields the identical result (in particular the same
pair identifier), and a second resolution of the same unordered pair (in
either order) returns exactly the pair produced by the first, without
further state change: get-or-create is idempotent and order
insensitive. -/
theorem ensurePair_order_insensitive_idempotent (f : FactoryState)
    (tokenA tokenB : Addr) (_hne : tokenA ≠ tokenB) :
    ensurePair f tokenA tokenB = ensurePair f tokenB tokenA ∧
    ∀ (p : Addr) (f' : FactoryState),
      ensurePair f tokenA tokenB = .ok (p, f') →
      ensurePair f' tokenB tokenA = .ok (p, f') := by
  have hget : ∀ g : FactoryState, g.getPair tokenA tokenB = g.getPair tokenB tokenA := by
    intro g
    unfold FactoryState.getPair
    rw [canonKey_symm]
  constructor
  · unfold ensurePair FactoryState.createPair
    rw [hget f, sortTokens_symm]
  · intro p f' h
    unfold ensurePair at h
    by_cases hp : f.getPair tokenA tokenB ≠ 0
    · rw [if_pos hp] at h
      simp only [Except.ok.injEq, Prod.mk.injEq] at h
      obtain ⟨rfl, rfl⟩ := h
      unfold ensurePair
      rw [← hget f, if_pos hp]
    · rw [if_neg hp] at h
      unfold FactoryState.createPair at h
      cases hs : sortTokens tokenA tokenB with
      | error e => rw [hs] at h; cases h
      | ok tt =>
        obtain ⟨token0, token1⟩ := tt
        rw [hs] at h
        simp only [Except.ok.injEq, Prod.mk.injEq] at h
        obtain ⟨rfl, rfl⟩ := h
        have hkey : canonKey tokenB tokenA = (token0, token1) := by
          rw [canonKey_symm]; exact sortTokens_ok_canonKey hs
        unfold ensurePair FactoryState.getPair
        rw [hkey]
        simp [lookupPairKey]

/-- Closed witness for C9: a fresh registry, tokens `1` and `2`;
symmetric resolution and the idempotent second call. -/
theorem ensurePair_order_insensitive_idempotent_witness :
    ensurePair ⟨[], 0⟩ 1 2 = ensurePair ⟨[], 0⟩ 2 1 ∧
    ensurePair ⟨[((1, 2), 1)], 1⟩ 2 1 = .ok (1, ⟨[((1, 2), 1)], 1⟩) :=
  ⟨(ensurePair_order_insensitive_idempotent ⟨[], 0⟩ 1 2 (by decide)).1,
   (ensurePair_order_insensitive_idempotent ⟨[], 0⟩ 1 2 (by decide)).2
      1 ⟨[((1, 2), 1)], 1⟩ (by decide)⟩

/-! ### Router guards -/

/-- **C6.** When the quoted output `amounts[last]` is below
`amountOutMin`, `swapExactTokensForTokens` fails with the slippage error
(`"ROUTER: INSUFFICIENT_OUTPUT"`, the spec's SlippageError), and under
the ambient revert semantics the post-call ledger — every pair's
reserves — equals the pre-call ledger. -/
theorem swapExactIn_slippage_guard (c : Ctx) (s : AmmState)
    (amountIn amountOutMin : Nat) (path : List Addr) (toAddr : Addr)
    (deadline : Nat) (q : Addr) (s1 : AmmState) (amounts : List Nat)
    (hdl : c.timestamp ≤ deadline)
    (hens : ensurePairS s (path.getD 0 0) (path.getD 1 0) = .ok (q, s1))
    (hq : getAmountsOut s1 amountIn path = .ok amounts)
    (hmin : amounts.getD (amounts.length - 1) 0 < amountOutMin) :
    swapExactTokensForTokens c s amountIn amountOutMin path toAddr deadline =
      .error .insufficientOutput ∧
    errClass .insufficientOutput = .slippageErr ∧
    runTx s (swapExactTokensForTokens c s amountIn amountOutMin path toAddr deadline) =
      (s, .error .insufficientOutput) := by
  have hlen : 2 ≤ path.length := by
    by_contra hc
    rw [getAmountsOut, if_neg hc] at hq
    cases hq
  have hmain : swapExactTokensForTokens c s amountIn amountOutMin path toAddr deadline =
      .error .insufficientOutput := by
    simp only [swapExactTokensForTokens, if_pos hdl, if_pos hlen, hens, hq,
      if_neg (Nat.not_le.mpr hmin)]
  exact ⟨hmain, rfl, by rw [hmain]; rfl⟩

/-- Closed witness for C6 on `sampleState`: true quote is `90`,
`amountOutMin = 91`. -/
theorem swapExactIn_slippage_guard_witness :
    swapExactTokensForTokens ⟨9, 8, 3, 50⟩ sampleState 100 91 [1, 2] 55 60 =
      .error .insufficientOutput ∧
    errClass .insufficientOutput = .slippageErr ∧
    runTx sampleState
        (swapExactTokensForTokens ⟨9, 8, 3, 50⟩ sampleState 100 91 [1, 2] 55 60) =
      (sampleState, .error .insufficientOutput) :=
  swapExactIn_slippage_guard ⟨9, 8, 3, 50⟩ sampleState 100 91 [1, 2] 55 60
    7 sampleState [100, 90] (by decide) (by decide) (by decide) (by decide)

/-- **C7.** Every swapExactIn variant fails with the expired error when
the current time exceeds the deadline and with the path validation error
when `path.length < 2`; the checks precede any quoting or transfer (the
failures hold for every ledger state).  The native-in variant further
requires `path[0]` to be the wrapped-native token and the native-out
variant requires `path[last]` to be it, else the same validation
error. -/
theorem swapExactIn_validation_guards :
    (∀ (c : Ctx) (s : AmmState) (amountIn amountOutMin : Nat) (path : List Addr)
        (toAddr : Addr) (deadline : Nat), deadline < c.timestamp →
      swapExactTokensForTokens c s amountIn amountOutMin path toAddr deadline =
        .error .expired) ∧
    (∀ (c : Ctx) (s : AmmState) (value amountOutMin : Nat) (path : List Addr)
        (toAddr : Addr) (deadline : Nat), deadline < c.timestamp →
      swapExactETHForTokens c s value amountOutMin path toAddr deadline =
        .error .expired) ∧
    (∀ (c : Ctx) (s : AmmState) (amountIn amountOutMin : Nat) (path : List Addr)
        (toAddr : Addr) (deadline : Nat), deadline < c.timestamp →
      swapExactTokensForETH c s amountIn amountOutMin path toAddr deadline =
        .error .expired) ∧
    (∀ (c : Ctx) (s : AmmState) (amountIn amountOutMin : Nat) (path : List Addr)
        (toAddr : Addr) (deadline : Nat),
      c.timestamp ≤ deadline → path.length < 2 →
      swapExactTokensForTokens c s amountIn amountOutMin path toAddr deadline =
        .error .pathRouter) ∧
    (∀ (c : Ctx) (s : AmmState) (value amountOutMin : Nat) (path : List Addr)
        (toAddr : Addr) (deadline : Nat),
      c.timestamp ≤ deadline → path.length < 2 →
      swapExactETHForTokens c s value amountOutMin path toAddr deadline =
        .error .pathRouter) ∧
    (∀ (c : Ctx) (s : AmmState) (amountIn amountOutMin : Nat) (path : List Addr)
        (toAddr : Addr) (deadline : Nat),
      c.timestamp ≤ deadline → path.length < 2 →
      swapExactTokensForETH c s amountIn amountOutMin path toAddr deadline =
        .error .pathRouter) ∧
    (∀ (c : Ctx) (s : AmmState) (value amountOutMin : Nat) (path : List Addr)
        (toAddr : Addr) (deadline : Nat),
      c.timestamp ≤ deadline → path.getD 0 0 ≠ c.weth →
      swapExactETHForTokens c s value amountOutMin path toAddr deadline =
        .error .pathRouter) ∧
    (∀ (c : Ctx) (s : AmmState) (amountIn amountOutMin : Nat) (path : List Addr)
        (toAddr : Addr) (deadline : Nat),
      c.timestamp ≤ deadline → path.getD (path.length - 1) 0 ≠ c.weth →
      swapExactTokensForETH c s amountIn amountOutMin path toAddr deadline =
        .error .pathRouter) ∧
    errClass .expired = .expiredErr ∧ errClass .pathRouter = .validationErr := by
  refine ⟨fun c s aIn aMin path toAddr dl h => ?_,
          fun c s v aMin path toAddr dl h => ?_,
          fun c s aIn aMin path toAddr dl h => ?_,
          fun c s aIn aMin path toAddr dl hts hp => ?_,
          fun c s v aMin path toAddr dl hts hp => ?_,
          fun c s aIn aMin path toAddr dl hts hp => ?_,
          fun c s v aMin path toAddr dl hts hw => ?_,
          fun c s aIn aMin path toAddr dl hts hw => ?_, rfl, rfl⟩
  · rw [swapExactTokensForTokens, if_neg (Nat.not_le.mpr h)]
  · rw [swapExactETHForTokens, if_neg (Nat.not_le.mpr h)]
  · rw [swapExactTokensForETH, if_neg (Nat.not_le.mpr h)]
  · rw [swapExactTokensForTokens, if_pos hts, if_neg (by omega)]
  · rw [swapExactETHForTokens, if_pos hts,
      if_neg (fun hcon => absurd hcon.1 (by omega))]
  · rw [swapExactTokensForETH, if_pos hts,
      if_neg (fun hcon => absurd hcon.1 (by omega))]
  · rw [swapExactETHForTokens, if_pos hts, if_neg (fun hcon => hw hcon.2)]
  · rw [swapExactTokensForETH, if_pos hts, if_neg (fun hcon => hw hcon.2)]

/-- Closed witness for C7: each guard exercised at a concrete input
(`weth = 3` in the context `⟨9, 8, 3, 50⟩`). -/
theorem swapExactIn_validation_guards_witness :
    swapExactTokensForTokens ⟨9, 8, 3, 50⟩ sampleState 100 0 [1, 2] 55 49 =
      .error .expired ∧
    swapExactETHForTokens ⟨9, 8, 3, 50⟩ sampleState 100 0 [3, 2] 55 49 =
      .error .expired ∧
    swapExactTokensForETH ⟨9, 8, 3, 50⟩ sampleState 100 0 [2, 3] 55 49 =
      .error .expired ∧
    swapExactTokensForTokens ⟨9, 8, 3, 50⟩ sampleState 100 0 [1] 55 60 =
      .error .pathRouter ∧
    swapExactETHForTokens ⟨9, 8, 3, 50⟩ sampleState 100 0 [3] 55 60 =
      .error .pathRouter ∧
    swapExactTokensForETH ⟨9, 8, 3, 50⟩ sampleState 100 0 [3] 55 60 =
      .error .pathRouter ∧
    swapExactETHForTokens ⟨9, 8, 3, 50⟩ sampleState 100 0 [1, 2] 55 60 =
      .error .pathRouter ∧
    swapExactTokensForETH ⟨9, 8, 3, 50⟩ sampleState 100 0 [1, 2] 55 60 =
      .error .pathRouter :=
  ⟨swapExactIn_validation_guards.1 ⟨9, 8, 3, 50⟩ sampleState 100 0 [1, 2] 55 49
      (by decide),
   swapExactIn_validation_guards.2.1 ⟨9, 8, 3, 50⟩ sampleState 100 0 [3, 2] 55 49
      (by decide),
   swapExactIn_validation_guards.2.2.1 ⟨9, 8, 3, 50⟩ sampleState 100 0 [2, 3] 55 49
      (by decide),
   swapExactIn_validation_guards.2.2.2.1 ⟨9, 8, 3, 50⟩ sampleState 100 0 [1] 55 60
      (by decide) (by decide),
   swapExactIn_validation_guards.2.2.2.2.1 ⟨9, 8, 3, 50⟩ sampleState 100 0 [3] 55 60
      (by decide) (by decide),
   swapExactIn_validation_guards.2.2.2.2.2.1 ⟨9, 8, 3, 50⟩ sampleState 100 0 [3] 55 60
      (by decide) (by decide),
   swapExactIn_validation_guards.2.2.2.2.2.2.1 ⟨9, 8, 3, 50⟩ sampleState 100 0 [1, 2]
      55 60 (by decide) (by decide),
   swapExactIn_validation_guards.2.2.2.2.2.2.2.1 ⟨9, 8, 3, 50⟩ sampleState 100 0 [1, 2]
      55 60 (by decide) (by decide)⟩

/-! ### Multi-hop settlement plan -/

theorem swapActions_char (s : AmmState) :
    ∀ (path : List Addr) (amounts : List Nat) (dest : Addr) (calls : List Action),
      amounts.length = path.length →
      swapActions s amounts path dest = .ok calls →
      calls.length = path.length - 1 ∧
      ∀ i, i + 1 < path.length →
        ∃ pair token0 token1 dst,
          sortTokens (path.getD i 0) (path.getD (i + 1) 0) = .ok (token0, token1) ∧
          pairFor s (path.getD i 0) (path.getD (i + 1) 0) = .ok pair ∧
          ((i + 2 < path.length ∧
              pairFor s (path.getD (i + 1) 0) (path.getD (i + 2) 0) = .ok dst) ∨
            (i + 2 = path.length ∧ dst = dest)) ∧
          calls.getD i (.ethTransfer 0 0) =
            (if path.getD i 0 = token0
             then Action.pairSwap pair 0 (amounts.getD (i + 1) 0) dst
             else Action.pairSwap pair (amounts.getD (i + 1) 0) 0 dst) := by
  intro path
  induction path with
  | nil =>
    intro amounts dest calls hlen h
    have h0 : swapActions s amounts [] dest = .ok [] := by
      cases amounts with
      | nil => rfl
      | cons a as => cases as with | nil => rfl | cons b bs => rfl
    rw [h0] at h
    simp only [Except.ok.injEq] at h
    subst h
    exact ⟨rfl, fun i hi => by simp at hi⟩
  | cons input rest ih =>
    intro amounts dest calls hlen h
    cases rest with
    | nil =>
      have h0 : swapActions s amounts [input] dest = .ok [] := by
        cases amounts with
        | nil => rfl
        | cons a as => cases as with | nil => rfl | cons b bs => rfl
      rw [h0] at h
      simp only [Except.ok.injEq] at h
      subst h
      refine ⟨rfl, fun i hi => ?_⟩
      simp only [List.length_cons, List.length_nil] at hi
      omega
    | cons output rest' =>
      obtain ⟨a0, a1, as, rfl⟩ : ∃ a0 a1 as, amounts = a0 :: a1 :: as := by
        cases amounts with
        | nil => simp at hlen
        | cons x xs =>
          cases xs with
          | nil =>
            simp only [List.length_cons, List.length_nil] at hlen
            omega
          | cons y ys => exact ⟨x, y, ys, rfl⟩
      cases hst : sortTokens input output with
      | error e => simp only [swapActions, hst] at h; cases h
      | ok tt =>
        obtain ⟨token0, token1⟩ := tt
        cases rest' with
        | nil =>
          cases hpf : pairFor s input output with
          | error e => simp only [swapActions, hst, hpf] at h; cases h
          | ok pair =>
            have hrec : swapActions s (a1 :: as) [output] dest = .ok [] := by
              cases as with | nil => rfl | cons b bs => rfl
            simp only [swapActions, hst, hpf, hrec, Except.ok.injEq] at h
            subst h
            refine ⟨rfl, fun i hi => ?_⟩
            have hi0 : i = 0 := by
              simp only [List.length_cons, List.length_nil] at hi
              omega
            subst hi0
            refine ⟨pair, token0, token1, dest, by simpa using hst,
              by simpa using hpf, Or.inr ⟨rfl, rfl⟩, ?_⟩
            by_cases hin : input = token0 <;> simp [hin]
        | cons next rest'' =>
          cases hto : pairFor s output next with
          | error e => simp only [swapActions, hst, hto] at h; cases h
          | ok dst0 =>
            cases hpf : pairFor s input output with
            | error e => simp only [swapActions, hst, hto, hpf] at h; cases h
            | ok pair =>
              cases hrec : swapActions s (a1 :: as) (output :: next :: rest'') dest with
              | error e => simp only [swapActions, hst, hto, hpf, hrec] at h; cases h
              | ok tl =>
                simp only [swapActions, hst, hto, hpf, hrec, Except.ok.injEq] at h
                subst h
                have hlen' : (a1 :: as).length = (output :: next :: rest'').length := by
                  simpa using hlen
                obtain ⟨htl, hidx⟩ := ih (a1 :: as) dest tl hlen' hrec
                constructor
                · simp only [List.length_cons] at htl ⊢
                  omega
                · intro i hi
                  cases i with
                  | zero =>
                    refine ⟨pair, token0, token1, dst0, by simpa using hst,
                      by simpa using hpf, Or.inl ⟨?_, by simpa using hto⟩, ?_⟩
                    · simp only [List.length_cons]
                      omega
                    · by_cases hin : input = token0 <;> simp [hin]
                  | succ j =>
                    have hj : j + 1 < (output :: next :: rest'').length := by
                      simp only [List.length_cons] at hi ⊢
                      omega
                    obtain ⟨pair', t0', t1', dst', h1', h2', h3', h4'⟩ := hidx j hj
                    refine ⟨pair', t0', t1', dst', by simpa using h1',
                      by simpa using h2', ?_, by simpa using h4'⟩
                    rcases h3' with ⟨hlt, hpf'⟩ | ⟨heq, hdst⟩
                    · refine Or.inl ⟨?_, by simpa using hpf'⟩
                      simp only [List.length_cons] at hlt ⊢
                      omega
                    · refine Or.inr ⟨?_, hdst⟩
                      simp only [List.length_cons] at heq ⊢
                      omega

/-- **C8.** During settlement of a path of length `n`: hop `i` instructs
the pair of `(path[i], path[i+1])` to release exactly `amounts[i+1]` of
the output token, choosing the `amount0Out`/`amount1Out` side by
canonical token ordering, with destination the pair of hop `i+1` for
every non-final hop and the caller-requested destination for the last
hop; and for native-asset output (`swapExactTokensForETH`) the `_swap`
destination is the engine itself, which then unwraps and forwards
exactly `amounts[n-1]` to the recipient. -/
theorem swap_settlement_plan :
    (∀ (s : AmmState) (path : List Addr) (amounts : List Nat) (dest : Addr)
        (calls : List Action),
      amounts.length = path.length →
      swapActions s amounts path dest = .ok calls →
      calls.length = path.length - 1 ∧
      ∀ i, i + 1 < path.length →
        ∃ pair token0 token1 dst,
          sortTokens (path.getD i 0) (path.getD (i + 1) 0) = .ok (token0, token1) ∧
          pairFor s (path.getD i 0) (path.getD (i + 1) 0) = .ok pair ∧
          ((i + 2 < path.length ∧
              pairFor s (path.getD (i + 1) 0) (path.getD (i + 2) 0) = .ok dst) ∨
            (i + 2 = path.length ∧ dst = dest)) ∧
          calls.getD i (.ethTransfer 0 0) =
            (if path.getD i 0 = token0
             then Action.pairSwap pair 0 (amounts.getD (i + 1) 0) dst
             else Action.pairSwap pair (amounts.getD (i + 1) 0) 0 dst)) ∧
    (∀ (c : Ctx) (s : AmmState) (amountIn amountOutMin : Nat) (path : List Addr)
        (toAddr : Addr) (deadline : Nat) (s1 : AmmState) (amounts : List Nat)
        (acts : List Action),
      swapExactTokensForETH c s amountIn amountOutMin path toAddr deadline =
        .ok (s1, amounts, acts) →
      ∃ pair inner,
        pairFor s1 (path.getD 0 0) (path.getD 1 0) = .ok pair ∧
        swapActions s1 amounts path c.router = .ok inner ∧
        acts = .transferFrom (path.getD 0 0) c.sender pair (amounts.getD 0 0) ::
          inner ++ [.wethWithdraw (amounts.getD (amounts.length - 1) 0),
                    .ethTransfer toAddr (amounts.getD (amounts.length - 1) 0)]) := by
  refine ⟨swapActions_char, ?_⟩
  intro c s amountIn amountOutMin path toAddr deadline s1 amounts acts h
  unfold swapExactTokensForETH at h
  by_cases h1 : c.timestamp ≤ deadline
  · rw [if_pos h1] at h
    by_cases h2 : 2 ≤ path.length ∧ path.getD (path.length - 1) 0 = c.weth
    · rw [if_pos h2] at h
      cases hens : ensurePairS s (path.getD 0 0) (path.getD 1 0) with
      | error e => simp only [hens] at h; cases h
      | ok ps =>
        obtain ⟨q, s1'⟩ := ps
        simp only [hens] at h
        cases hq : getAmountsOut s1' amountIn path with
        | error e => simp only [hq] at h; cases h
        | ok amounts' =>
          simp only [hq] at h
          by_cases h3 : amountOutMin ≤ amounts'.getD (amounts'.length - 1) 0
          · rw [if_pos h3] at h
            cases hpf : pairFor s1' (path.getD 0 0) (path.getD 1 0) with
            | error e => simp only [hpf] at h; cases h
            | ok pair =>
              simp only [hpf] at h
              cases hacts : swapActions s1' amounts' path c.router with
              | error e => simp only [hacts] at h; cases h
              | ok inner =>
                simp only [hacts, Except.ok.injEq, Prod.mk.injEq] at h
                obtain ⟨rfl, rfl, rfl⟩ := h
                exact ⟨pair, inner, hpf, hacts, rfl⟩
          · rw [if_neg h3] at h; cases h
    · rw [if_neg h2] at h; cases h
  · rw [if_neg h1] at h; cases h

/-- Second sample ledger for the multi-hop witnesses: pairs `(1, 2) ↦ 7`
and `(2, 3) ↦ 8`, each with reserves `(1000, 1000)`; token `3` plays the
wrapped-native role. -/
def sampleState2 : AmmState :=
  ⟨⟨[((1, 2), 7), ((2, 3), 8)], 8⟩, [(7, (1000, 1000)), (8, (1000, 1000))]⟩

/-- Closed witness for C8 on `sampleState2` with `path = [1, 2, 3]` and
`amounts = [100, 90, 82]`: the hop-call characterization at hop 0 and the
native-out trace of `swapExactTokensForETH` in the context
`⟨9, 4, 3, 50⟩` (router `4`, `weth = 3`). -/
theorem swap_settlement_plan_witness :
    (([Action.pairSwap 7 0 90 8, .pairSwap 8 0 82 55] : List Action).length =
        ([1, 2, 3] : List Addr).length - 1) ∧
    (∃ pair token0 token1 dst,
      sortTokens (([1, 2, 3] : List Addr).getD 0 0)
          (([1, 2, 3] : List Addr).getD (0 + 1) 0) = .ok (token0, token1) ∧
      pairFor sampleState2 (([1, 2, 3] : List Addr).getD 0 0)
          (([1, 2, 3] : List Addr).getD (0 + 1) 0) = .ok pair ∧
      ((0 + 2 < ([1, 2, 3] : List Addr).length ∧
          pairFor sampleState2 (([1, 2, 3] : List Addr).getD (0 + 1) 0)
            (([1, 2, 3] : List Addr).getD (0 + 2) 0) = .ok dst) ∨
        (0 + 2 = ([1, 2, 3] : List Addr).length ∧ dst = 55)) ∧
      ([Action.pairSwap 7 0 90 8, .pairSwap 8 0 82 55] : List Action).getD 0
          (.ethTransfer 0 0) =
        (if ([1, 2, 3] : List Addr).getD 0 0 = token0
         then Action.pairSwap pair 0 (([100, 90, 82] : List Nat).getD (0 + 1) 0) dst
         else Action.pairSwap pair (([100, 90, 82] : List Nat).getD (0 + 1) 0) 0 dst)) ∧
    (∃ pair inner,
      pairFor sampleState2 (([1, 2, 3] : List Addr).getD 0 0)
          (([1, 2, 3] : List Addr).getD 1 0) = .ok pair ∧
      swapActions sampleState2 [100, 90, 82] [1, 2, 3]
          (Ctx.mk 9 4 3 50).router = .ok inner ∧
      ([Action.transferFrom 1 9 7 100, .pairSwap 7 0 90 8, .pairSwap 8 0 82 4,
        .wethWithdraw 82, .ethTransfer 55 82] : List Action) =
        .transferFrom (([1, 2, 3] : List Addr).getD 0 0) (Ctx.mk 9 4 3 50).sender
            pair (([100, 90, 82] : List Nat).getD 0 0) ::
          inner ++
            [.wethWithdraw (([100, 90, 82] : List Nat).getD
                (([100, 90, 82] : List Nat).length - 1) 0),
             .ethTransfer 55 (([100, 90, 82] : List Nat).getD
                (([100, 90, 82] : List Nat).length - 1) 0)]) :=
  ⟨(swap_settlement_plan.1 sampleState2 [1, 2, 3] [100, 90, 82] 55
      [Action.pairSwap 7 0 90 8, .pairSwap 8 0 82 55] (by decide) (by decide)).1,
   (swap_settlement_plan.1 sampleState2 [1, 2, 3] [100, 90, 82] 55
      [Action.pairSwap 7 0 90 8, .pairSwap 8 0 82 55] (by decide) (by decide)).2
      0 (by decide),
   swap_settlement_plan.2 ⟨9, 4, 3, 50⟩ sampleState2 100 0 [1, 2, 3] 55 60
      sampleState2 [100, 90, 82]
      [Action.transferFrom 1 9 7 100, .pairSwap 7 0 90 8, .pairSwap 8 0 82 4,
       .wethWithdraw 82, .ethTransfer 55 82] (by decide)⟩

end RobinhoodSwap
